import Mathlib

/-
Verification of the real-time notification delivery subsystem
(notifications/sse.py): the per-user publish/subscribe broker
(NotificationEventPublisher, local in-memory adapter), the SSE frame
encoder (format_sse_event) and the streaming session loop (event_stream).

The Python code is shallowly embedded: the bounded per-user queue becomes
a Lean list with the code's drop-oldest enqueue, the broker registry
becomes an association list of user id to queue, json.dumps becomes an
executable encoder over a small JSON value type, and the generator
event_stream becomes a function from a list of loop outcomes (event
received, timeout with due timers, client disconnect, internal error) to
the list of yielded frames together with the number of unsubscribe calls.
-/

namespace SSE

/-- JSON values as produced by the payloads the subsystem handles:
strings, integers and objects with insertion-ordered fields. -/
inductive Json where
  | str (s : String)
  | num (n : Int)
  | obj (fields : List (String × Json))
deriving Repr

/-- Escape of a single character inside a JSON string literal, mirroring
the escapes json.dumps applies to the characters that occur here. -/
def escapeChar (c : Char) : String :=
  if c = '"' then "\\\""
  else if c = '\\' then "\\\\"
  else if c = '\n' then "\\n"
  else if c = '\t' then "\\t"
  else if c = '\r' then "\\r"
  else String.singleton c

/-- JSON string literal encoding: quote, escape each character, quote. -/
def encodeString (s : String) : String :=
  "\"" ++ String.join (s.data.map escapeChar) ++ "\""

mutual

/-- Embedding of json.dumps(data, default=str) on the modelled values:
Python's default separators are a comma-space between members and a
colon-space between a key and its value. -/
def jsonDumps : Json → String
  | .str s => encodeString s
  | .num n => toString n
  | .obj fs => "\x7b" ++ jsonDumpsFields fs ++ "\x7d"

/-- Members of a JSON object rendered in order, separated by comma-space. -/
def jsonDumpsFields : List (String × Json) → String
  | [] => ""
  | (k, v) :: rest =>
    match rest with
    | [] => encodeString k ++ ": " ++ jsonDumps v
    | _ :: _ => encodeString k ++ ": " ++ jsonDumps v ++ ", " ++ jsonDumpsFields rest

end

/-- Split of a character list at each newline, mirroring Python's
str.split('\n'): the result always has at least one piece. -/
def splitOnNl : List Char → List (List Char)
  | [] => [[]]
  | c :: rest =>
    if c = '\n' then [] :: splitOnNl rest
    else
      match splitOnNl rest with
      | [] => [[c]]
      | l :: ls => (c :: l) :: ls

/-- String-level wrapper of splitOnNl, the model of json_data.split('\n'). -/
def splitLines (s : String) : List String :=
  (splitOnNl s.data).map String.mk

/-- Embedding of Python's "\n".join(lines): the separator goes between
consecutive elements only. -/
def joinNl : List String → String
  | [] => ""
  | [s] => s
  | s :: rest => s ++ "\n" ++ joinNl rest

/-- Embedding of format_sse_event from notifications/sse.py: builds the
list of frame lines (id line, optional event line for a non-empty type,
optional retry line, one data line per newline-separated piece of the
JSON encoding, a final empty element) and joins them with newlines,
appending a trailing newline. -/
def format_sse_event (event_id : Nat) (event_type : String) (data : Json)
    (retry_ms : Option Nat) : String :=
  let lines : List String :=
    ["id: " ++ toString event_id]
    ++ (if event_type ≠ "" then ["event: " ++ event_type] else [])
    ++ (match retry_ms with
        | some ms => ["retry: " ++ toString ms]
        | none => [])
    ++ (splitLines (jsonDumps data)).map (fun l => "data: " ++ l)
  joinNl (lines ++ [""]) ++ "\n"

/-- Each line terminated by a newline, concatenated; the building block of
the frame grammar of spec section 6. -/
def linesToString : List String → String
  | [] => ""
  | s :: rest => s ++ "\n" ++ linesToString rest

/-- Modelled from the spec: the wire frame grammar of section 6,
`"id:" SP id LF ("event:" SP type LF)? ("retry:" SP ms LF)?
("data:" SP line LF)+ LF`, rendered for a given id, type, retry value and
list of data lines. -/
def frameRender (event_id : Nat) (event_type : String) (retry_ms : Option Nat)
    (dataLines : List String) : String :=
  "id: " ++ toString event_id ++ "\n"
  ++ (if event_type ≠ "" then "event: " ++ event_type ++ "\n" else "")
  ++ (match retry_ms with
      | some ms => "retry: " ++ toString ms ++ "\n"
      | none => "")
  ++ linesToString (dataLines.map (fun l => "data: " ++ l))
  ++ "\n"

theorem empty_append_str (s : String) : "" ++ s = s := by
  cases s
  rfl

theorem str_append_empty (s : String) : s ++ "" = s := by
  cases s with
  | mk data =>
    show String.mk (data ++ []) = String.mk data
    rw [List.append_nil]

theorem str_append_assoc (a b c : String) : a ++ b ++ c = a ++ (b ++ c) := by
  cases a with
  | mk da =>
    cases b with
    | mk db =>
      cases c with
      | mk dc =>
        show String.mk (da ++ db ++ dc) = String.mk (da ++ (db ++ dc))
        rw [List.append_assoc]

theorem joinNl_cons_cons (s t : String) (ts : List String) :
    joinNl (s :: t :: ts) = s ++ "\n" ++ joinNl (t :: ts) := rfl

theorem joinNl_append_last (l : List String) (last : String) :
    joinNl (l ++ [last]) = linesToString l ++ last := by
  induction l with
  | nil => simp [joinNl, linesToString, empty_append_str]
  | cons s rest ih =>
    cases rest with
    | nil =>
      show joinNl [s, last] = _
      rw [joinNl_cons_cons]
      simp [joinNl, linesToString, str_append_assoc, str_append_empty]
    | cons t ts =>
      show joinNl (s :: ((t :: ts) ++ [last])) = _
      rw [List.cons_append, joinNl_cons_cons, ← List.cons_append, ih]
      simp [linesToString, str_append_assoc]

theorem linesToString_append (a b : List String) :
    linesToString (a ++ b) = linesToString a ++ linesToString b := by
  induction a with
  | nil => simp [linesToString, empty_append_str]
  | cons s rest ih => simp [linesToString, ih, str_append_assoc]

theorem splitOnNl_ne_nil (cs : List Char) : splitOnNl cs ≠ [] := by
  cases cs with
  | nil => simp [splitOnNl]
  | cons c rest =>
    simp only [splitOnNl]
    split
    · simp
    · cases h : splitOnNl rest <;> simp

theorem splitLines_ne_nil (s : String) : splitLines s ≠ [] := by
  unfold splitLines
  intro h
  exact splitOnNl_ne_nil s.data (List.map_eq_nil_iff.mp h)

/-- Core structural fact about the encoder: the emitted string is exactly
one frame of the grammar, whose data lines are the newline-separated
pieces of the JSON encoding of the payload. -/
theorem format_sse_event_eq (event_id : Nat) (event_type : String) (data : Json)
    (retry_ms : Option Nat) :
    format_sse_event event_id event_type data retry_ms
      = frameRender event_id event_type retry_ms (splitLines (jsonDumps data)) := by
  show joinNl (_ ++ [""]) ++ "\n" = _
  rw [joinNl_append_last]
  unfold frameRender
  cases retry_ms with
  | none =>
    by_cases ht : event_type = "" <;>
      simp [ht, linesToString, linesToString_append, str_append_assoc,
        str_append_empty, empty_append_str]
  | some ms =>
    by_cases ht : event_type = "" <;>
      simp [ht, linesToString, linesToString_append, str_append_assoc,
        str_append_empty, empty_append_str]

/-- The dict placed on a user's queue. publish always builds all three
keys; the Option fields model a dequeued dict in which a key may be
absent (the session reads them with .get and a default). -/
structure EventDict where
  type : Option String
  data : Option Json
  timestamp : Option String

/-- Embedding of the event dict literal built at the top of publish:
`{'type': event_type, 'data': data, 'timestamp': ...}`. -/
def buildEvent (event_type : String) (data : Json) (ts : String) : EventDict :=
  ⟨some event_type, some data, some ts⟩

/-- Embedding of the bounded enqueue of publish: put_nowait succeeds while
the queue holds fewer than cap items; on queue.Full the code removes the
oldest item with get_nowait and puts the new one; if that get finds the
queue empty the new event is silently dropped (unreachable for cap > 0). -/
def boundedPut {α : Type} (cap : Nat) (q : List α) (e : α) : List α :=
  if q.length < cap then q ++ [e]
  else
    match q with
    | [] => []
    | _ :: rest => rest ++ [e]

/-- The broker registry self._queues: an association list of user id to
that user's queue contents, oldest first. A Python dict cannot hold two
bindings for one key; here that is the Nodup invariant proved below. -/
abbrev Registry : Type := List (Nat × List EventDict)

/-- Lookup of a user's queue, the model of `user_id in self._queues` plus
`self._queues[user_id]`. -/
def regFind : Registry → Nat → Option (List EventDict)
  | [], _ => none
  | (k, q) :: rest, u => if k = u then some q else regFind rest u

/-- Removal of the binding for a user, the model of
`self._queues.pop(user_id, None)`. -/
def regRemove : Registry → Nat → Registry
  | [], _ => []
  | (k, q) :: rest, u => if k = u then rest else (k, q) :: regRemove rest u

/-- Replacement of a user's queue, the model of in-place mutation of
`self._queues[user_id]` by put_nowait/get_nowait. -/
def regUpdate : Registry → Nat → List EventDict → Registry
  | [], _, _ => []
  | (k, q) :: rest, u, q2 => if k = u then (k, q2) :: rest else (k, q) :: regUpdate rest u q2

/-- The registered user ids, in registry order. -/
def keys (reg : Registry) : List Nat := reg.map Prod.fst

/-- Embedding of NotificationEventPublisher.subscribe (in-memory branch):
if the user already has a queue return it, otherwise register a fresh
empty queue with maxsize 100 and return it. -/
def subscribe (u : Nat) (reg : Registry) : Registry × List EventDict :=
  match regFind reg u with
  | some q => (reg, q)
  | none => (reg ++ [(u, [])], [])

/-- Embedding of NotificationEventPublisher.unsubscribe: pop the user's
queue from the registry if present. -/
def unsubscribe (u : Nat) (reg : Registry) : Registry :=
  regRemove reg u

/-- Embedding of NotificationEventPublisher.publish (in-memory branch):
build the event dict; if the user has a registered queue enqueue with the
drop-oldest policy, otherwise only log — the registry is untouched and
nothing is raised. -/
def publish (u : Nat) (event_type : String) (data : Json) (ts : String)
    (reg : Registry) : Registry :=
  let event := buildEvent event_type data ts
  match regFind reg u with
  | some q => regUpdate reg u (boundedPut 100 q event)
  | none => reg

/-- A sequence of publish calls to one user, oldest first. -/
def publishAll (u : Nat) (ps : List (String × Json × String)) (reg : Registry) :
    Registry :=
  ps.foldl (fun r p => publish u p.1 p.2.1 p.2.2 r) reg

/-- One broker API call, for stating invariants over arbitrary
interleavings of subscribe, unsubscribe and publish. -/
inductive BrokerOp where
  | sub (u : Nat)
  | unsub (u : Nat)
  | pub (u : Nat) (event_type : String) (data : Json) (ts : String)

/-- Effect of one broker call on the registry. -/
def applyOp (reg : Registry) : BrokerOp → Registry
  | .sub u => (subscribe u reg).1
  | .unsub u => unsubscribe u reg
  | .pub u et d ts => publish u et d ts reg

/-- Registry reached from the empty initial registry of __new__ after a
sequence of broker calls. -/
def runOps (ops : List BrokerOp) : Registry :=
  ops.foldl applyOp []

/-- One interaction with a single user's queue: a publish-side bounded
enqueue or a session-side get. -/
inductive QOp (α : Type) where
  | put (e : α)
  | take

/-- State of one user's queue run: the buffered items, the items the
session has dequeued so far, and the items removed by drop-oldest. -/
structure QState (α : Type) where
  queue : List α
  delivered : List α
  dropped : List α

/-- Effect of one queue interaction: put follows the enqueue of publish
(append while below capacity, else drop the oldest into the dropped log
and append); take is the session's get, moving the oldest buffered item
to the delivered log (a get on an empty queue times out and delivers
nothing). -/
def qStep {α : Type} (cap : Nat) (s : QState α) : QOp α → QState α
  | .put e =>
    if s.queue.length < cap then ⟨s.queue ++ [e], s.delivered, s.dropped⟩
    else
      match s.queue with
      | [] => s
      | old :: rest => ⟨rest ++ [e], s.delivered, s.dropped ++ [old]⟩
  | .take =>
    match s.queue with
    | [] => s
    | e :: rest => ⟨rest, s.delivered ++ [e], s.dropped⟩

/-- Run of a queue interaction sequence from the empty queue. -/
def runQ {α : Type} (cap : Nat) (ops : List (QOp α)) : QState α :=
  ops.foldl (qStep cap) ⟨[], [], []⟩

/-- The published sequence of a queue run: the put arguments in order. -/
def putsOf {α : Type} (ops : List (QOp α)) : List α :=
  ops.filterMap (fun op => match op with | .put e => some e | .take => none)

/-- Data of the synthetic connected event emitted at session start. -/
def connectedData (user_id : Nat) : Json :=
  .obj [("message", .str "Connected to notification stream"),
        ("user_id", .num (Int.ofNat user_id))]

/-- Data of a keep-alive ping event. -/
def pingData (now : Nat) : Json :=
  .obj [("message", .str "keep-alive"), ("timestamp", .num (Int.ofNat now))]

/-- Data of the error event emitted when the streaming loop raises. -/
def errorData (msg : String) : Json :=
  .obj [("error", .str msg)]

/-- Outcome of one iteration of the while-loop of event_stream: the
queue get returned an event; the get timed out (with flags saying whether
the ping interval and the heartbeat interval have elapsed, and the
current unix time); the client disconnected (GeneratorExit reached the
loop); or an exception escaped the loop body. -/
inductive SessionStep where
  | recv (e : EventDict)
  | timeout (pingDue : Bool) (heartbeatDue : Bool) (now : Nat)
  | disconnect
  | internalError (msg : String)

/-- One value yielded by the generator: an SSE event frame built by
format_sse_event, or a heartbeat comment line. -/
inductive SessionYield where
  | frame (event_id : Nat) (event_type : String) (data : Json) (retry_ms : Option Nat)
  | heartbeat (ts : Nat)

/-- The frame the loop builds for a dequeued event dict:
`event.get('type', 'notification')`, `event.get('data', {})`,
retry_ms 3000. -/
def recvFrame (event_id : Nat) (e : EventDict) : SessionYield :=
  .frame event_id (e.type.getD "notification") (e.data.getD (.obj [])) (some 3000)

/-- Embedding of the while-loop of event_stream, driven by the outcome of
each iteration. Returns the yielded values and the number of
unsubscribe calls made. On a received event the frame is yielded and the
id advances; on a timeout a ping frame (consuming an id) and then a
heartbeat comment (consuming none) are yielded when due; on disconnect
the code unsubscribes and breaks; on an internal error it yields one
error frame and breaks without unsubscribing. -/
def sessionLoop : Nat → List SessionStep → List SessionYield × Nat
  | _, [] => ([], 0)
  | eid, .recv e :: rest =>
    let out := sessionLoop (eid + 1) rest
    (recvFrame eid e :: out.1, out.2)
  | eid, .timeout pingDue hbDue now :: rest =>
    let pingOut : List SessionYield :=
      if pingDue then [.frame eid "ping" (pingData now) (some 3000)] else []
    let eid2 := if pingDue then eid + 1 else eid
    let hbOut : List SessionYield := if hbDue then [.heartbeat now] else []
    let out := sessionLoop eid2 rest
    (pingOut ++ hbOut ++ out.1, out.2)
  | _, .disconnect :: _ => ([], 1)
  | eid, .internalError msg :: _ =>
    ([.frame eid "error" (errorData msg) (some 3000)], 0)

/-- Embedding of the generator event_stream: the initial connected frame
with id 0 and retry 3000, then the streaming loop starting at id 1. -/
def eventStream (user_id : Nat) (steps : List SessionStep) :
    List SessionYield × Nat :=
  let initial := SessionYield.frame 0 "connected" (connectedData user_id) (some 3000)
  let out := sessionLoop 1 steps
  (initial :: out.1, out.2)

/-- The string actually yielded for one SessionYield: event frames go
through format_sse_event, heartbeats are the comment literal
`: heartbeat <unixTime>` followed by the double newline. -/
def renderYield : SessionYield → String
  | .frame eid t d r => format_sse_event eid t d r
  | .heartbeat ts => ": heartbeat " ++ toString ts ++ "\n\n"

/-- The event ids carried by the emitted values, in emission order;
heartbeat comments carry none. -/
def idsOf (ys : List SessionYield) : List Nat :=
  ys.filterMap (fun y => match y with
    | .frame eid _ _ _ => some eid
    | .heartbeat _ => none)

example : jsonDumps (connectedData 5)
    = "\x7b\"message\": \"Connected to notification stream\", \"user_id\": 5\x7d" := by
  rfl

example : format_sse_event 0 "connected" (connectedData 5) (some 3000)
    = "id: 0\nevent: connected\nretry: 3000\ndata: \x7b\"message\": "
      ++ "\"Connected to notification stream\", \"user_id\": 5\x7d\n\n" := by
  rfl

example : splitLines "ab\ncd" = ["ab", "cd"] := by rfl

example : [0, 1, 2, 3].foldl (boundedPut 3) [] = [1, 2, 3] := by rfl

example :
    idsOf (eventStream 5
      [SessionStep.timeout true true 100,
       SessionStep.recv ⟨some "notification", some (Json.str "x"), some "t"⟩,
       SessionStep.disconnect]).1 = [0, 1, 2] := by
  rfl

example :
    (eventStream 5
      [SessionStep.timeout true true 100,
       SessionStep.recv ⟨some "notification", some (Json.str "x"), some "t"⟩,
       SessionStep.disconnect]).2 = 1 := by
  rfl

theorem idsOf_nil : idsOf [] = [] := rfl

theorem idsOf_cons_frame (eid : Nat) (t : String) (d : Json) (r : Option Nat)
    (ys : List SessionYield) :
    idsOf (SessionYield.frame eid t d r :: ys) = eid :: idsOf ys := rfl

theorem idsOf_cons_heartbeat (ts : Nat) (ys : List SessionYield) :
    idsOf (SessionYield.heartbeat ts :: ys) = idsOf ys := rfl

theorem idsOf_append (a b : List SessionYield) :
    idsOf (a ++ b) = idsOf a ++ idsOf b :=
  List.filterMap_append a b _

/-- Ids of the loop frames starting from counter n are a consecutive run
starting at n: every frame consumes the next id, heartbeats consume none. -/
theorem sessionLoop_ids (steps : List SessionStep) :
    ∀ n : Nat, ∃ k : Nat, idsOf (sessionLoop n steps).1 = List.range' n k := by
  induction steps with
  | nil => intro n; exact ⟨0, rfl⟩
  | cons step rest ih =>
    intro n
    cases step with
    | recv e =>
      obtain ⟨k, hk⟩ := ih (n + 1)
      refine ⟨k + 1, ?_⟩
      show idsOf (recvFrame n e :: (sessionLoop (n + 1) rest).1) = _
      rw [recvFrame, idsOf_cons_frame, hk, List.range'_succ]
    | timeout pingDue hbDue now =>
      cases pingDue with
      | false =>
        obtain ⟨k, hk⟩ := ih n
        refine ⟨k, ?_⟩
        cases hbDue with
        | false => simpa [sessionLoop, idsOf_append] using hk
        | true => simpa [sessionLoop, idsOf_append, idsOf_cons_heartbeat] using hk
      | true =>
        obtain ⟨k, hk⟩ := ih (n + 1)
        refine ⟨k + 1, ?_⟩
        cases hbDue with
        | false =>
          simp only [sessionLoop, if_true, idsOf_append, List.range'_succ]
          simpa [idsOf_cons_frame, idsOf_nil] using hk
        | true =>
          simp only [sessionLoop, if_true, idsOf_append, List.range'_succ]
          simpa [idsOf_cons_frame, idsOf_cons_heartbeat, idsOf_nil] using hk
    | disconnect => exact ⟨0, rfl⟩
    | internalError msg =>
      refine ⟨1, ?_⟩
      show idsOf [SessionYield.frame n "error" (errorData msg) (some 3000)] = _
      simp [idsOf_cons_frame, idsOf_nil, List.range'_succ]

/-- C6: in every session the ids of emitted event frames are the
consecutive integers 0, 1, 2, ... in emission order — the connected
frame, delivered event frames, ping frames and an error frame each
consume the next id — while heartbeat comments appear without any id and
consume none (a heartbeat yield contributes nothing to the id sequence
and renders as a comment line, not an id line). -/
theorem c6_session_ids_consecutive (user_id : Nat) (steps : List SessionStep) :
    idsOf (eventStream user_id steps).1
      = List.range (idsOf (eventStream user_id steps).1).length
    ∧ (∀ ts : Nat, idsOf [SessionYield.heartbeat ts] = []
        ∧ renderYield (SessionYield.heartbeat ts)
            = ": heartbeat " ++ toString ts ++ "\n\n") := by
  constructor
  · obtain ⟨k, hk⟩ := sessionLoop_ids steps 1
    have h : idsOf (eventStream user_id steps).1 = 0 :: List.range' 1 k := by
      show idsOf (SessionYield.frame 0 "connected" (connectedData user_id) (some 3000)
          :: (sessionLoop 1 steps).1) = _
      rw [idsOf_cons_frame, hk]
    rw [h]
    have hlen : (0 :: List.range' 1 k).length = k + 1 := by simp
    rw [hlen, List.range_eq_range', List.range'_succ]
  · intro ts
    exact ⟨rfl, rfl⟩

/-- C8: the first value the generator yields, before any queued event is
read, is the synthetic connected frame with id 0, retry hint 3000 ms and
data holding the message string and the session's user id; the rest of
the output is the streaming loop's output starting at id 1. -/
theorem c8_connected_frame_first (user_id : Nat) (steps : List SessionStep) :
    (eventStream user_id steps).1
      = SessionYield.frame 0 "connected" (connectedData user_id) (some 3000)
        :: (sessionLoop 1 steps).1
    ∧ connectedData user_id
      = Json.obj [("message", Json.str "Connected to notification stream"),
                  ("user_id", Json.num (Int.ofNat user_id))] :=
  ⟨rfl, rfl⟩

/-- C1 (refuted, code bug): on the internal-error termination path the
generator emits the connected frame and one error frame and finishes with
zero unsubscribe calls, while the client-disconnect path makes exactly
one — so unsubscribe is not called on every termination path. -/
theorem c1_error_path_skips_unsubscribe :
    (eventStream 7 [SessionStep.internalError "boom"]).2 = 0
    ∧ (eventStream 7 [SessionStep.internalError "boom"]).1
        = [SessionYield.frame 0 "connected" (connectedData 7) (some 3000),
           SessionYield.frame 1 "error" (errorData "boom") (some 3000)]
    ∧ (eventStream 7 [SessionStep.disconnect]).2 = 1 :=
  ⟨rfl, rfl, rfl⟩

/-- C10: a dequeued event dict missing the type key is rendered with
event type notification and one missing the data key with the empty JSON
object, so the resulting frame is still one well-formed frame of the
grammar (with a non-empty event line and the single data line "{}"). -/
theorem c10_missing_keys_use_defaults (event_id : Nat) (e : EventDict)
    (h1 : e.type = none) (h2 : e.data = none) :
    recvFrame event_id e
      = SessionYield.frame event_id "notification" (Json.obj []) (some 3000)
    ∧ renderYield (recvFrame event_id e)
      = frameRender event_id "notification" (some 3000) ["\x7b\x7d"] := by
  have hframe : recvFrame event_id e
      = SessionYield.frame event_id "notification" (Json.obj []) (some 3000) := by
    rw [recvFrame, h1, h2]
    rfl
  refine ⟨hframe, ?_⟩
  rw [hframe]
  show format_sse_event event_id "notification" (Json.obj []) (some 3000) = _
  rw [format_sse_event_eq]
  rfl

theorem c10_witness :
    (⟨none, none, some "ts"⟩ : EventDict).type = none
    ∧ (⟨none, none, some "ts"⟩ : EventDict).data = none
    ∧ (recvFrame 4 ⟨none, none, some "ts"⟩
        = SessionYield.frame 4 "notification" (Json.obj []) (some 3000)
      ∧ renderYield (recvFrame 4 ⟨none, none, some "ts"⟩)
        = frameRender 4 "notification" (some 3000) ["\x7b\x7d"]) :=
  ⟨rfl, rfl, c10_missing_keys_use_defaults 4 ⟨none, none, some "ts"⟩ rfl rfl⟩

/-- C3: for every event id, event type, data and retry value the string
produced by format_sse_event is exactly one frame of the wire grammar:
the id line, an event line exactly when the type is non-empty, a retry
line exactly when a retry value is given, then one data line per
newline-separated line of the JSON encoding of the data — a nonempty
list of data lines — terminated by the final blank line. -/
theorem c3_frame_grammar (event_id : Nat) (event_type : String) (data : Json)
    (retry_ms : Option Nat) :
    format_sse_event event_id event_type data retry_ms
      = frameRender event_id event_type retry_ms (splitLines (jsonDumps data))
    ∧ splitLines (jsonDumps data) ≠ [] :=
  ⟨format_sse_event_eq event_id event_type data retry_ms,
   splitLines_ne_nil (jsonDumps data)⟩

theorem regFind_eq_none_iff (reg : Registry) (u : Nat) :
    regFind reg u = none ↔ u ∉ keys reg := by
  induction reg with
  | nil => simp [regFind, keys]
  | cons p rest ih =>
    obtain ⟨k, q⟩ := p
    show (if k = u then some q else regFind rest u) = none ↔ u ∉ k :: keys rest
    by_cases h : k = u
    · subst h
      simp
    · rw [if_neg h, ih]
      constructor
      · intro hn hm
        rcases List.mem_cons.mp hm with he | hm2
        · exact h he.symm
        · exact hn hm2
      · intro hn hm2
        exact hn (List.mem_cons_of_mem _ hm2)

theorem keys_regUpdate (reg : Registry) (u : Nat) (q2 : List EventDict) :
    keys (regUpdate reg u q2) = keys reg := by
  induction reg with
  | nil => rfl
  | cons p rest ih =>
    obtain ⟨k, q⟩ := p
    by_cases h : k = u
    · simp [regUpdate, keys, h]
    · simp only [regUpdate, if_neg h]
      show k :: keys (regUpdate rest u q2) = k :: keys rest
      rw [ih]

theorem keys_regRemove_sublist (reg : Registry) (u : Nat) :
    (keys (regRemove reg u)).Sublist (keys reg) := by
  induction reg with
  | nil => exact List.Sublist.refl _
  | cons p rest ih =>
    obtain ⟨k, q⟩ := p
    by_cases h : k = u
    · simp only [regRemove, if_pos h]
      exact List.sublist_cons_self k (keys rest)
    · simp only [regRemove, if_neg h]
      exact ih.cons₂ k

theorem keys_publish (u : Nat) (et : String) (d : Json) (ts : String)
    (reg : Registry) : keys (publish u et d ts reg) = keys reg := by
  unfold publish
  cases h : regFind reg u with
  | none => rfl
  | some q => simpa using keys_regUpdate reg u _

theorem keys_applyOp (reg : Registry) (op : BrokerOp)
    (h : (keys reg).Nodup) : (keys (applyOp reg op)).Nodup := by
  cases op with
  | sub u =>
    show (keys (subscribe u reg).1).Nodup
    unfold subscribe
    cases hf : regFind reg u with
    | some q => exact h
    | none =>
      have hu : u ∉ keys reg := (regFind_eq_none_iff reg u).mp hf
      have hkeys : keys (reg ++ [(u, [])]) = keys reg ++ [u] := by
        simp [keys]
      rw [hkeys]
      refine List.Nodup.append h (List.nodup_singleton u) ?_
      intro a ha hb
      rw [List.mem_singleton.mp hb] at ha
      exact hu ha
  | unsub u =>
    exact ((keys_regRemove_sublist reg u).nodup h)
  | pub u et d ts =>
    show (keys (publish u et d ts reg)).Nodup
    rw [keys_publish]
    exact h

theorem foldl_applyOp_nodup (ops : List BrokerOp) :
    ∀ reg : Registry, (keys reg).Nodup →
      (keys (ops.foldl applyOp reg)).Nodup := by
  induction ops with
  | nil => intro reg h; exact h
  | cons op rest ih =>
    intro reg h
    exact ih (applyOp reg op) (keys_applyOp reg op h)

/-- C7: over every interleaving of broker calls started from the empty
registry, each user id has at most one channel (the key list of the
registry never repeats), and subscribe is idempotent: a subscribe for a
user that already has a channel returns that channel and the registry
unchanged. -/
theorem c7_registry_invariant :
    (∀ ops : List BrokerOp, (keys (runOps ops)).Nodup)
    ∧ (∀ (u : Nat) (reg : Registry) (q : List EventDict),
        regFind reg u = some q → subscribe u reg = (reg, q)) := by
  constructor
  · intro ops
    exact foldl_applyOp_nodup ops [] (by simp [keys])
  · intro u reg q h
    unfold subscribe
    rw [h]

theorem c7_witness :
    regFind [(1, [])] 1 = some []
    ∧ subscribe 1 [(1, [])] = ([(1, [])], []) :=
  ⟨rfl, c7_registry_invariant.2 1 [(1, [])] [] rfl⟩

/-- C9: publishing to a user with no registered channel returns the
registry unchanged — no channel is created and no other user's queue is
touched — and a publish call never changes the set of registered users. -/
theorem c9_publish_without_channel (reg : Registry) (u : Nat) (et : String)
    (d : Json) (ts : String) (h : regFind reg u = none) :
    publish u et d ts reg = reg := by
  unfold publish
  rw [h]

theorem c9_witness :
    regFind [(2, [⟨some "notification", some (Json.obj []), some "t0"⟩])] 5 = none
    ∧ publish 5 "notification" (Json.obj []) "t1"
        [(2, [⟨some "notification", some (Json.obj []), some "t0"⟩])]
      = [(2, [⟨some "notification", some (Json.obj []), some "t0"⟩])] :=
  ⟨rfl, c9_publish_without_channel _ 5 "notification" (Json.obj []) "t1" rfl⟩

theorem regFind_regRemove_self (reg : Registry) (u : Nat)
    (h : (keys reg).Nodup) : regFind (regRemove reg u) u = none := by
  induction reg with
  | nil => rfl
  | cons p rest ih =>
    obtain ⟨k, q⟩ := p
    have hrest : (keys rest).Nodup := (List.nodup_cons.mp h).2
    by_cases hk : k = u
    · subst hk
      have hk2 : k ∉ keys rest := (List.nodup_cons.mp h).1
      simp only [regRemove, if_pos rfl]
      exact (regFind_eq_none_iff rest k).mpr hk2
    · simp only [regRemove, if_neg hk, regFind, if_neg hk]
      exact ih hrest

theorem keys_publishAll (u : Nat) (ps : List (String × Json × String)) :
    ∀ reg : Registry, keys (publishAll u ps reg) = keys reg := by
  induction ps with
  | nil => intro reg; rfl
  | cons p rest ih =>
    intro reg
    show keys (publishAll u rest (publish u p.1 p.2.1 p.2.2 reg)) = keys reg
    rw [ih, keys_publish]

/-- C5: publish is a total function (it never raises, whatever the
target user and payload), and after unsubscribe(u) every publish to u is
silently dropped: the registry still holds no channel for u, and a
subsequent fresh subscribe(u) returns the empty channel, containing none
of the events published while unsubscribed. -/
theorem c5_publish_after_unsubscribe (reg : Registry) (u : Nat)
    (ps : List (String × Json × String)) (h : (keys reg).Nodup) :
    regFind (publishAll u ps (unsubscribe u reg)) u = none
    ∧ (subscribe u (publishAll u ps (unsubscribe u reg))).2 = [] := by
  have h1 : regFind (unsubscribe u reg) u = none :=
    regFind_regRemove_self reg u h
  have h2 : regFind (publishAll u ps (unsubscribe u reg)) u = none := by
    rw [regFind_eq_none_iff, keys_publishAll]
    exact (regFind_eq_none_iff _ u).mp h1
  refine ⟨h2, ?_⟩
  unfold subscribe
  rw [h2]

theorem c5_witness :
    (keys [(3, [⟨some "notification", some (Json.num 0), some "t0"⟩])]).Nodup
    ∧ (regFind (publishAll 3 [("notification", Json.num 1, "t1")]
          (unsubscribe 3 [(3, [⟨some "notification", some (Json.num 0), some "t0"⟩])])) 3 = none
      ∧ (subscribe 3 (publishAll 3 [("notification", Json.num 1, "t1")]
          (unsubscribe 3 [(3, [⟨some "notification", some (Json.num 0), some "t0"⟩])]))).2 = []) :=
  ⟨by simp [keys],
   c5_publish_after_unsubscribe
     [(3, [⟨some "notification", some (Json.num 0), some "t0"⟩])] 3
     [("notification", Json.num 1, "t1")] (by simp [keys])⟩

/-- The event dict a publish call with this triple of arguments puts on
the queue. -/
def mkEventTriple (p : String × Json × String) : EventDict :=
  buildEvent p.1 p.2.1 p.2.2

theorem publish_single (u : Nat) (q : List EventDict)
    (p : String × Json × String) :
    publish u p.1 p.2.1 p.2.2 [(u, q)]
      = [(u, boundedPut 100 q (mkEventTriple p))] := by
  simp [publish, regFind, regUpdate, mkEventTriple]

theorem publishAll_single (u : Nat) (ps : List (String × Json × String)) :
    ∀ q : List EventDict,
      publishAll u ps [(u, q)]
        = [(u, (ps.map mkEventTriple).foldl (boundedPut 100) q)] := by
  induction ps with
  | nil => intro q; rfl
  | cons p rest ih =>
    intro q
    show publishAll u rest (publish u p.1 p.2.1 p.2.2 [(u, q)]) = _
    rw [publish_single, ih, List.map_cons, List.foldl_cons]

/-- Outcome of the drop-oldest enqueue discipline on an initially empty
queue: after any publish sequence the buffer holds exactly the most
recent min(length, cap) events, in order. -/
theorem foldl_boundedPut {α : Type} (cap : Nat) (hcap : 0 < cap)
    (evs : List α) :
    evs.foldl (boundedPut cap) [] = evs.drop (evs.length - cap) := by
  induction evs using List.reverseRecOn with
  | nil => simp
  | append_singleton evs e ih =>
    rw [List.foldl_append, ih]
    simp only [List.foldl_cons, List.foldl_nil]
    by_cases hlt : evs.length < cap
    · have h0 : evs.length - cap = 0 := Nat.sub_eq_zero_of_le (le_of_lt hlt)
      have h1 : (evs ++ [e]).length - cap = 0 := by
        rw [List.length_append]
        simp only [List.length_singleton]
        omega
      rw [h0, h1, List.drop_zero, List.drop_zero]
      unfold boundedPut
      rw [if_pos hlt]
    · have hc : cap ≤ evs.length := Nat.le_of_not_lt hlt
      have hq : (evs.drop (evs.length - cap)).length = cap := by
        rw [List.length_drop]
        exact Nat.sub_sub_self hc
      cases hdrop : evs.drop (evs.length - cap) with
      | nil =>
        exfalso
        rw [hdrop] at hq
        simp at hq
        omega
      | cons hd tl =>
        rw [hdrop] at hq
        unfold boundedPut
        rw [if_neg (by rw [hq]; omega)]
        have htl : tl = evs.drop (evs.length - cap + 1) := by
          have := List.tail_drop evs (evs.length - cap)
          rw [hdrop] at this
          simpa using this
        have harith : (evs ++ [e]).length - cap = evs.length - cap + 1 := by
          rw [List.length_append]
          simp only [List.length_singleton]
          omega
        rw [harith,
          List.drop_append_of_le_length (by omega), ← htl]

/-- C2: for any subscribed user and any 101 publishes whose event dicts
are pairwise distinct, the channel (capacity 100) afterwards holds
exactly the last 100 published events in publish order, and the first
published event is absent. Each publish is a total function (the model
of put_nowait plus the drop-oldest handler), so no publish blocks or
raises. -/
theorem c2_overflow_drops_oldest (u : Nat)
    (ps : List (String × Json × String))
    (hlen : ps.length = 101) (hnd : (ps.map mkEventTriple).Nodup) :
    regFind (publishAll u ps (subscribe u []).1) u
      = some ((ps.map mkEventTriple).drop 1)
    ∧ ∀ e : EventDict, (ps.map mkEventTriple).head? = some e →
        e ∉ (ps.map mkEventTriple).drop 1 := by
  have hsub : (subscribe u []).1 = [(u, [])] := rfl
  have hfold : (ps.map mkEventTriple).foldl (boundedPut 100) []
      = (ps.map mkEventTriple).drop 1 := by
    rw [foldl_boundedPut 100 (by omega)]
    rw [List.length_map, hlen]
  constructor
  · rw [hsub, publishAll_single, hfold]
    simp [regFind]
  · intro e he
    cases hevs : ps.map mkEventTriple with
    | nil => rw [hevs] at he; simp at he
    | cons a t =>
      rw [hevs] at he
      simp only [List.head?_cons, Option.some_inj] at he
      subst he
      rw [hevs] at hnd
      simpa using (List.nodup_cons.mp hnd).1

theorem c2_witness :
    (((List.range 101).map
        (fun i => ("notification", Json.num (Int.ofNat i), "t"))).length = 101)
    ∧ ((((List.range 101).map
        (fun i => ("notification", Json.num (Int.ofNat i), "t"))).map
          mkEventTriple).Nodup)
    ∧ (regFind (publishAll 5 ((List.range 101).map
        (fun i => ("notification", Json.num (Int.ofNat i), "t")))
          (subscribe 5 []).1) 5
        = some ((((List.range 101).map
          (fun i => ("notification", Json.num (Int.ofNat i), "t"))).map
            mkEventTriple).drop 1)
      ∧ ∀ e : EventDict, (((List.range 101).map
          (fun i => ("notification", Json.num (Int.ofNat i), "t"))).map
            mkEventTriple).head? = some e →
          e ∉ (((List.range 101).map
            (fun i => ("notification", Json.num (Int.ofNat i), "t"))).map
              mkEventTriple).drop 1) := by
  have hlen : (((List.range 101).map
      (fun i => ("notification", Json.num (Int.ofNat i), "t"))).length = 101) := by
    simp
  have hnd : ((((List.range 101).map
      (fun i => ("notification", Json.num (Int.ofNat i), "t"))).map
        mkEventTriple).Nodup) := by
    rw [List.map_map]
    refine (List.nodup_range 101).map ?_
    intro a b hab
    simpa [mkEventTriple, buildEvent] using hab
  exact ⟨hlen, hnd, c2_overflow_drops_oldest 5 _ hlen hnd⟩

theorem putsOf_nil {α : Type} : putsOf ([] : List (QOp α)) = [] := rfl

theorem putsOf_put_cons {α : Type} (e : α) (ops : List (QOp α)) :
    putsOf (.put e :: ops) = e :: putsOf ops := rfl

theorem putsOf_take_cons {α : Type} (ops : List (QOp α)) :
    putsOf (.take :: ops) = putsOf ops := rfl

/-- The queue component of a put step is exactly the drop-oldest enqueue
used by publish. -/
theorem qStep_put_queue {α : Type} (cap : Nat) (s : QState α) (e : α) :
    (qStep cap s (.put e)).queue = boundedPut cap s.queue e := by
  by_cases h : s.queue.length < cap
  · simp [qStep, boundedPut, h]
  · cases hq : s.queue with
    | nil =>
      rw [hq] at h
      simp only [List.length_nil] at h
      simp [qStep, boundedPut, hq, h]
    | cons old rest =>
      rw [hq] at h
      simp only [List.length_cons] at h
      simp [qStep, boundedPut, hq, h]

theorem runQ_invariant {α : Type} (cap : Nat) (hcap : 0 < cap) :
    ∀ (ops : List (QOp α)) (s : QState α),
      (((ops.foldl (qStep cap) s).delivered
          ++ (ops.foldl (qStep cap) s).queue).Sublist
        (s.delivered ++ s.queue ++ putsOf ops))
      ∧ ((s.delivered : Multiset α) + ↑s.queue + ↑(putsOf ops) + ↑s.dropped
          = ↑(ops.foldl (qStep cap) s).delivered
            + ↑(ops.foldl (qStep cap) s).queue
            + ↑(ops.foldl (qStep cap) s).dropped) := by
  intro ops
  induction ops with
  | nil =>
    intro s
    constructor
    · simp [putsOf_nil]
    · simp [putsOf_nil]
  | cons op rest ih =>
    intro s
    obtain ⟨ihA, ihB⟩ := ih (qStep cap s op)
    have key₁ : ((qStep cap s op).delivered ++ (qStep cap s op).queue
        ++ putsOf rest).Sublist (s.delivered ++ s.queue ++ putsOf (op :: rest)) := by
      cases op with
      | take =>
        cases hq : s.queue with
        | nil =>
          simp [qStep, hq, putsOf_take_cons]
        | cons e q2 =>
          rw [putsOf_take_cons]
          simp only [qStep, hq]
          simp only [List.append_assoc, List.singleton_append, List.cons_append]
          exact List.Sublist.refl _
      | put e =>
        by_cases h : s.queue.length < cap
        · rw [putsOf_put_cons]
          simp only [qStep, if_pos h]
          simp only [List.append_assoc, List.singleton_append, List.cons_append]
          exact List.Sublist.refl _
        · cases hq : s.queue with
          | nil =>
            exfalso
            rw [hq] at h
            simp at h
            omega
          | cons old q2 =>
            rw [hq] at h
            rw [putsOf_put_cons]
            simp only [qStep, hq, if_neg h]
            simp only [List.append_assoc, List.singleton_append, List.cons_append]
            exact (List.sublist_cons_self old _).append_left s.delivered
    have key₂ : (↑s.delivered + ↑s.queue + ↑(putsOf (op :: rest))
          + ↑s.dropped : Multiset α)
        = ↑(qStep cap s op).delivered + ↑(qStep cap s op).queue
          + ↑(putsOf rest) + ↑(qStep cap s op).dropped := by
      cases op with
      | take =>
        cases hq : s.queue with
        | nil => simp [qStep, hq, putsOf_take_cons]
        | cons e q2 =>
          rw [putsOf_take_cons]
          simp only [qStep, hq]
          simp only [← Multiset.cons_coe, ← Multiset.singleton_add,
            ← Multiset.coe_add, Multiset.coe_singleton]
          abel
      | put e =>
        by_cases h : s.queue.length < cap
        · rw [putsOf_put_cons]
          simp only [qStep, if_pos h]
          simp only [← Multiset.cons_coe, ← Multiset.singleton_add,
            ← Multiset.coe_add, Multiset.coe_singleton]
          abel
        · cases hq : s.queue with
          | nil =>
            exfalso
            rw [hq] at h
            simp at h
            omega
          | cons old q2 =>
            rw [hq] at h
            rw [putsOf_put_cons]
            simp only [qStep, hq, if_neg h]
            simp only [← Multiset.cons_coe, ← Multiset.singleton_add,
              ← Multiset.coe_add, Multiset.coe_singleton]
            abel
    refine ⟨?_, ?_⟩
    · show (((rest.foldl (qStep cap) (qStep cap s op)).delivered
          ++ (rest.foldl (qStep cap) (qStep cap s op)).queue).Sublist _)
      exact ihA.trans key₁
    · show (↑s.delivered + ↑s.queue + ↑(putsOf (op :: rest))
          + ↑s.dropped : Multiset α) = _
      rw [key₂]
      exact ihB

/-- C4: for every interleaving of publish-side enqueues and session-side
dequeues on one subscribed user's queue (capacity 100), the delivered
sequence is a subsequence of the published sequence in the same relative
order, and every published event is accounted for exactly once as
delivered, still buffered, or removed by the drop-oldest overflow
policy — so the only published events missing from delivery are the
overflow-dropped ones and those still buffered. -/
theorem c4_fifo_order_preserved (ops : List (QOp EventDict)) :
    (runQ 100 ops).delivered.Sublist (putsOf ops)
    ∧ ((runQ 100 ops).delivered ++ (runQ 100 ops).queue).Sublist (putsOf ops)
    ∧ (putsOf ops).Perm
        ((runQ 100 ops).delivered
          ++ ((runQ 100 ops).queue ++ (runQ 100 ops).dropped)) := by
  obtain ⟨hA, hB⟩ := runQ_invariant 100 (by omega) ops ⟨[], [], []⟩
  have hsub : ((runQ 100 ops).delivered ++ (runQ 100 ops).queue).Sublist
      (putsOf ops) := by
    simpa [runQ] using hA
  refine ⟨(List.sublist_append_left _ _).trans hsub, hsub, ?_⟩
  rw [← Multiset.coe_eq_coe]
  have h0 : (↑(putsOf ops) : Multiset EventDict)
      = ↑(runQ 100 ops).delivered + ↑(runQ 100 ops).queue
        + ↑(runQ 100 ops).dropped := by
    simpa [runQ] using hB
  simp only [← Multiset.coe_add]
  rw [h0, add_assoc]

end SSE
